import Mathlib

/-!
Verification development for the ldb key-value index engine
(`lib/ldb/ldb_key_value/ldb_kv_index.c`).

Shallow embedding conventions:
* an `ldb_val` is a byte string, modelled as `List Nat`;
* a `struct dn_list` is `DnList` (the `count` field is the list length);
* DNs compared only through `ldb_dn_compare` are abstracted as `Nat`
  identifiers (equal iff the compare returns 0);
* attribute names reaching `ldb_attr_cmp` are modelled as already
  casefolded byte strings, so the case-insensitive compare is equality;
* machine integers use `Nat` with explicit reduction modulo `2 ^ 32`
  (`unsigned int`) or `2 ^ 64` (`size_t`) where the C could wrap;
* fallible functions return `Option` or `Except LdbErr`.
-/

/-- Byte-string value (`struct ldb_val`). -/
abbrev Val := List Nat

/-- Result codes of the core that the modelled paths can produce. -/
inductive LdbErr where
  | noSuchObject
  | constraintViolation
  | operationsError
  | entryAlreadyExists
deriving DecidableEq

/-- Sign of `memcmp` on two byte strings (the C callers only ever compare
the result against 0, so we return -1/0/1). -/
def memcmpSign : List Nat → List Nat → Int
  | [], [] => 0
  | [], _ :: _ => -1
  | _ :: _, [] => 1
  | a :: as, b :: bs =>
    if a < b then -1
    else if b < a then 1
    else memcmpSign as bs

/-- Comparator `ldb_val_equal_exact_ordered`: longer value sorts first
(returns -1), shorter sorts last (returns 1), equal lengths fall back to
`memcmp`. -/
def ldb_val_equal_exact_ordered (v1 v2 : Val) : Int :=
  if v2.length < v1.length then -1
  else if v1.length < v2.length then 1
  else memcmpSign v1 v2

/-- External `ldb_val_equal_exact`: 1 on an exact byte match, else 0. -/
def ldb_val_equal_exact (v1 v2 : Val) : Nat :=
  if v1 = v2 then 1 else 0

/-- First index at which the predicate holds. -/
def findIdxP (p : Val → Bool) : List Val → Option Nat
  | [] => none
  | w :: ws =>
    if p w then some 0
    else (findIdxP p ws).map (· + 1)

/-- Modelled from the spec: `BINARY_ARRAY_SEARCH_GTE` lives in
`lib/util/binsearch.h`, which is not under `src/`.  Per the spec it binary
searches the sorted array for the target and yields `exact` (an element
comparing equal) or else `next` (the first element strictly greater); when
`exact` is found, `next` stays unset. -/
def binary_array_search_gte (l : List Val) (target : Val) :
    Option Nat × Option Nat :=
  match findIdxP (fun w => ldb_val_equal_exact_ordered target w == 0) l with
  | some i => (some i, none)
  | none => (none, findIdxP (fun w => ldb_val_equal_exact_ordered target w < 0) l)

/-- In-memory index list (`struct dn_list`); `count` is `dn.length`. -/
structure DnList where
  dn : List Val
  strict : Bool
deriving DecidableEq

/-- Search `ldb_kv_dn_list_find_val`: linear scan with
`ldb_val_equal_exact` when there is no GUID index attribute, otherwise the
binary search, rejecting a result whenever `next` is set. -/
def ldb_kv_dn_list_find_val (guid_mode : Bool) (l : List Val) (v : Val) : Int :=
  if guid_mode = false then
    match findIdxP (fun w => ldb_val_equal_exact w v == 1) l with
    | some i => (i : Int)
    | none => -1
  else
    match binary_array_search_gte l v with
    | (none, _) => -1
    | (some _, some _) => -1
    | (some i, none) => (i : Int)

/-- Intersection `list_intersect`: `list = list & list2`, with the two
superset shortcuts guarded by the `strict` flag of the larger side, and
the full walk testing each element of the shorter side against the longer
one. -/
def list_intersect (guid_mode : Bool) (list list2 : DnList) : DnList :=
  if list.dn.length = 0 then list
  else if list2.dn.length = 0 then { list with dn := [] }
  else if list.dn.length < 2 ∧ 10 < list2.dn.length ∧ list2.strict = false then
    list
  else if list2.dn.length < 2 ∧ 10 < list.dn.length ∧ list.strict = false then
    { list with dn := list2.dn }
  else
    let short_list := if list2.dn.length < list.dn.length then list2.dn else list.dn
    let long_list := if list2.dn.length < list.dn.length then list.dn else list2.dn
    { dn := short_list.filter
        (fun v => ldb_kv_dn_list_find_val guid_mode long_list v ≠ -1),
      strict := list.strict || list2.strict }

/-- Strict ascending sortedness of a value list under
`ldb_val_equal_exact_ordered` (the order maintained by GUID-mode index
records). -/
def strictlySortedB : List Val → Bool
  | [] => true
  | [_] => true
  | a :: b :: rest =>
    if ldb_val_equal_exact_ordered a b < 0 then strictlySortedB (b :: rest)
    else false

/-- Splice step of `ldb_kv_index_add1` in GUID mode: binary search for the
insertion position; when `next` is unset (exact hit or key above all
entries) the value goes at the end, otherwise it is spliced in before
`next`. -/
def ldb_kv_guid_index_insert (l : List Val) (g : Val) : List Val :=
  match binary_array_search_gte l g with
  | (_, none) => l ++ [g]
  | (_, some i) => l.take i ++ g :: l.drop i

/-- Reference ordered insertion, used to reason about the splice. -/
def insertSortedVal (g : Val) : List Val → List Val
  | [] => [g]
  | w :: ws =>
    if ldb_val_equal_exact_ordered g w < 0 then g :: w :: ws
    else w :: insertSortedVal g ws

/-- Payload of a GUID-mode `@IDX` value as written by
`ldb_kv_dn_list_store_full`: the 16-byte GUIDs concatenated in list
order. -/
def ldb_kv_guid_blob_encode (l : List Val) : List Nat := l.flatten

/-- Split a byte string into 16-byte slices, as `ldb_kv_dn_list_load`
does for a GUID-mode `@IDX` value. -/
def chunks16 : List Nat → List Val
  | [] => []
  | a :: rest => ((a :: rest).take 16) :: chunks16 ((a :: rest).drop 16)
termination_by l => l.length
decreasing_by simp; omega

/-- Decode step of `ldb_kv_dn_list_load` in GUID mode: the single `@IDX`
value must have a length that is a multiple of `LDB_KV_GUID_SIZE` (16) and
is cut into 16-byte slices. -/
def ldb_kv_guid_blob_decode (b : List Nat) : Option (List Val) :=
  if b.length % 16 = 0 then some (chunks16 b) else none

/-- Outcome of fetching a record by its index candidate
(`ldb_kv_search_key` composed with `ldb_kv_idx_to_key`): the record's DN,
a vanished record, or an internal error. -/
inductive FetchRes where
  | found (d : Nat)
  | vanished
  | internalError
deriving DecidableEq

/-- Candidate scan of `ldb_kv_key_dn_from_idx` when the `@IDXDN` key was
truncated: fetch each candidate, skip vanished records, fail on internal
errors, stop at the first record whose DN compares equal; running out of
candidates means the requested DN does not exist. -/
def key_dn_from_idx_scan (dn : Nat) (fetch : Val → FetchRes) :
    List Val → Except LdbErr Val
  | [] => .error .noSuchObject
  | v :: rest =>
    match fetch v with
    | .vanished => key_dn_from_idx_scan dn fetch rest
    | .internalError => .error .operationsError
    | .found d =>
      if d = dn then .ok v else key_dn_from_idx_scan dn fetch rest

/-- Core of `ldb_kv_key_dn_from_idx` after `ldb_kv_index_dn_base_dn` has
produced `list` and `truncation`: empty list is `NO_SUCH_OBJECT`; more
than one entry without truncation is a uniqueness violation; with
truncation the candidates are scanned; otherwise the single entry is the
key (the final `ldb_kv_guid_to_key` is modelled as the identity on the
candidate value). -/
def ldb_kv_key_dn_from_idx (truncation : Bool) (list : List Val) (dn : Nat)
    (fetch : Val → FetchRes) : Except LdbErr Val :=
  if list.length = 0 then .error .noSuchObject
  else if 1 < list.length ∧ truncation = false then .error .constraintViolation
  else if truncation = true then key_dn_from_idx_scan dn fetch list
  else
    match list with
    | v :: _ => .ok v
    | [] => .error .noSuchObject

/-- Duplicate scan of `ldb_kv_index_add1` for a truncated `@IDXDN` key:
fetch every existing candidate, skip vanished records, fail with
`OPERATIONS_ERROR` on an internal error, and deny the addition
(`CONSTRAINT_VIOLATION`) as soon as a candidate's DN equals the DN being
added. -/
def idxdn_dup_scan (msg_dn : Nat) (fetch : Val → FetchRes) :
    List Val → Except LdbErr Unit
  | [] => .ok ()
  | v :: rest =>
    match fetch v with
    | .vanished => idxdn_dup_scan msg_dn fetch rest
    | .internalError => .error .operationsError
    | .found d =>
      if d = msg_dn then .error .constraintViolation
      else idxdn_dup_scan msg_dn fetch rest

/-- Duplicate checks of `ldb_kv_index_add1` on the `@IDXDN` element, with
`list` the loaded DN->GUID list: a non-empty list under an untruncated key
is immediately a `CONSTRAINT_VIOLATION`; a non-empty list under a
truncated key triggers the candidate scan; passing the checks lets the
add proceed. -/
def ldb_kv_index_add1_idxdn (truncation : Bool) (list : List Val)
    (msg_dn : Nat) (fetch : Val → FetchRes) : Except LdbErr Unit :=
  if 0 < list.length ∧ truncation = false then .error .constraintViolation
  else if 0 < list.length then idxdn_dup_scan msg_dn fetch list
  else .ok ()

/-- Wrapper `ldb_kv_write_index_dn_guid` on the add path: a no-op without
a GUID index attribute; otherwise the `@IDXDN` insertion runs and a
`CONSTRAINT_VIOLATION` from it is remapped to `ENTRY_ALREADY_EXISTS`. -/
def ldb_kv_write_index_dn_guid_add (guid_mode : Bool) (truncation : Bool)
    (list : List Val) (msg_dn : Nat) (fetch : Val → FetchRes) :
    Except LdbErr Unit :=
  if guid_mode = false then .ok ()
  else
    match ldb_kv_index_add1_idxdn truncation list msg_dn fetch with
    | .error .constraintViolation => .error .entryAlreadyExists
    | r => r

/-- Filter parse-tree node as seen by the AND combinator: only the
operation kind (`LDB_OP_EQUALITY` or not) and the equality attribute are
inspected in the first pass. -/
inductive PNode where
  | eq (attr : List Nat)
  | other (tag : Nat)
deriving DecidableEq

/-- Tri-state outcome of the planner (`ldb_kv_index_dn` family):
`LDB_SUCCESS` with a candidate list, `LDB_ERR_NO_SUCH_OBJECT` (provably
empty), or `LDB_ERR_OPERATIONS_ERROR` (not indexed / needs a full
scan). -/
inductive IndexResult where
  | success (l : DnList)
  | noSuchObject
  | opError
deriving DecidableEq

/-- Schema facts consulted by `ldb_kv_index_unique`. -/
structure UniqueCfg where
  GUID_index_attribute : Option (List Nat)
  is_dn_attr : List Nat → Bool
  unique_index_flag : List Nat → Bool

/-- Predicate `ldb_kv_index_unique`: the GUID index attribute, the DN
attribute, or a `LDB_ATTR_FLAG_UNIQUE_INDEX` attribute. -/
def ldb_kv_index_unique (cfg : UniqueCfg) (attr : List Nat) : Bool :=
  (match cfg.GUID_index_attribute with
   | some g => attr == g
   | none => false)
  || cfg.is_dn_attr attr || cfg.unique_index_flag attr

/-- Whether a child is an equality leaf on a unique attribute (the only
children the first pass of `ldb_kv_index_dn_and` evaluates). -/
def is_unique_equality (cfg : UniqueCfg) : PNode → Bool
  | .eq a => ldb_kv_index_unique cfg a
  | .other _ => false

/-- First pass of `ldb_kv_index_dn_and`: scan the children for unique
equality leaves; `NO_SUCH_OBJECT` or `LDB_SUCCESS` from one of them
decides the whole AND, any other outcome moves on. -/
def index_dn_and_first_pass (cfg : UniqueCfg) (ev : PNode → IndexResult) :
    List PNode → Option IndexResult
  | [] => none
  | c :: cs =>
    if is_unique_equality cfg c then
      match ev c with
      | .noSuchObject => some .noSuchObject
      | .success l => some (.success l)
      | .opError => index_dn_and_first_pass cfg ev cs
    else index_dn_and_first_pass cfg ev cs

/-- Second pass of `ldb_kv_index_dn_and`: intersect the children one by
one, skipping not-indexed children, short-circuiting on `NO_SUCH_OBJECT`,
on an empty running list, or once fewer than two candidates remain; if no
child contributed, the AND is not indexed. -/
def index_dn_and_intersect (guid_mode : Bool) (ev : PNode → IndexResult) :
    List PNode → DnList → Bool → IndexResult
  | [], acc, found => if found then .success acc else .opError
  | c :: cs, acc, found =>
    match ev c with
    | .noSuchObject => .noSuchObject
    | .opError => index_dn_and_intersect guid_mode ev cs acc found
    | .success l2 =>
      let acc2 := if found then list_intersect guid_mode acc l2 else l2
      if acc2.dn.length = 0 then .noSuchObject
      else if acc2.dn.length < 2 then .success acc2
      else index_dn_and_intersect guid_mode ev cs acc2 true

/-- AND combinator `ldb_kv_index_dn_and`, with child evaluation
(`ldb_kv_index_dn` on each subtree) abstracted as the oracle `ev`. -/
def ldb_kv_index_dn_and (cfg : UniqueCfg) (guid_mode : Bool)
    (ev : PNode → IndexResult) (cs : List PNode) : IndexResult :=
  match index_dn_and_first_pass cfg ev cs with
  | some r => r
  | none => index_dn_and_intersect guid_mode ev cs ⟨[], false⟩ false

/-- Value of `UINT_MAX` on the modelled platform. -/
def UINT_MAX : Nat := 4294967295

/-- Subtraction in `size_t` (64-bit) arithmetic, for operands below
`2 ^ 64`. -/
def sub_size_t (a b : Nat) : Nat :=
  (a + 18446744073709551616 - b % 18446744073709551616) % 18446744073709551616

/-- Subtraction in `unsigned int` (32-bit) arithmetic, for operands below
`2 ^ 32`. -/
def sub_uint (a b : Nat) : Nat :=
  (a + 4294967296 - b % 4294967296) % 4294967296

/-- Effective key limit `ldb_kv_max_key_length`: a configured 0 means
unlimited (`UINT_MAX`). -/
def ldb_kv_max_key_length (max_key_length : Nat) : Nat :=
  if max_key_length = 0 then UINT_MAX else max_key_length

/-- Bytes of the literal `LDB_KV_INDEX` (`"@INDEX"`). -/
def LDB_KV_INDEX_bytes : List Nat := [64, 73, 78, 68, 69, 88]

/-- Byte of the untruncated separator `:` . -/
def sepColon : Nat := 58

/-- Byte of the truncated separator `#`. -/
def sepHash : Nat := 35

/-- Extra bytes the backing store adds around a key (leading `"DN="` and
the trailing terminator). -/
def additional_key_length : Nat := 4

/-- Minimum plausible key length: prefix bytes, the `@INDEX` literal,
three separators and one byte of data. -/
def min_key_length : Nat := additional_key_length + 6 + 3 + 1

/-- Up-front size check of `ldb_kv_index_key`, which the C computes with
unsigned `size_t` arithmetic as `max_key_length - attr_len <
min_key_length`. -/
def ldb_kv_index_key_min_check_fails (max_key_length attr_len : Nat) : Bool :=
  sub_size_t (ldb_kv_max_key_length max_key_length) attr_len < min_key_length

/-- Key composition of `ldb_kv_index_key`, starting from the casefolded
attribute and the canonicalised (and, when `b64` is set, base64-encoded)
value bytes: the minimum-fit check, then either the untruncated
`@INDEX:attr:value` / `@INDEX:attr::b64value` form, or, when the key would
exceed the limit, the truncated form with `#` / `##` separators and the
value cut down so the key plus the store's 4 extra bytes match the
limit. -/
def ldb_kv_index_key (max_key_length0 : Nat) (attr vstr : List Nat)
    (b64 : Bool) : Option (List Nat × Bool) :=
  let max_key_length := ldb_kv_max_key_length max_key_length0
  if ldb_kv_index_key_min_check_fails max_key_length0 attr.length then none
  else
    let mkl := sub_uint max_key_length additional_key_length
    let num_separators := if b64 then 3 else 2
    let key_len := num_separators + 6 + attr.length + vstr.length
    if mkl < key_len then
      let frmt_len := sub_size_t vstr.length (key_len - mkl)
      some (LDB_KV_INDEX_bytes ++ sepHash :: attr
             ++ (if b64 then [sepHash, sepHash] else [sepHash])
             ++ vstr.take frmt_len, true)
    else
      some (LDB_KV_INDEX_bytes ++ sepColon :: attr
             ++ (if b64 then [sepColon, sepColon] else [sepColon])
             ++ vstr, false)

/-- Association-list lookup keyed on the linearized index DN (modelled as
`Nat`). -/
def kvLookup (kv : List (Nat × List Val)) (k : Nat) : Option (List Val) :=
  (kv.find? (fun p => p.1 == k)).map (fun p => p.2)

/-- Remove a key from an association list. -/
def kvDelete (kv : List (Nat × List Val)) (k : Nat) : List (Nat × List Val) :=
  kv.filter (fun p => p.1 ≠ k)

/-- Insert-or-replace a key in an association list. -/
def kvPut (kv : List (Nat × List Val)) (k : Nat) (l : List Val) :
    List (Nat × List Val) :=
  (k, l) :: kvDelete kv k

/-- State seen by the index store facade: the backing KV's index records
(content abstracted as the decoded list) and the optional in-memory
transaction buffer `ldb_kv->idxptr`. -/
structure IdxState where
  kv : List (Nat × List Val)
  idxptr : Option (List (Nat × List Val))
deriving DecidableEq

/-- Full write `ldb_kv_dn_list_store_full`: an empty list deletes the
index record (a missing record is not an error), otherwise the record is
replaced. -/
def ldb_kv_dn_list_store_full (kv : List (Nat × List Val)) (k : Nat)
    (l : List Val) : List (Nat × List Val) :=
  if l.length = 0 then kvDelete kv k else kvPut kv k l

/-- Store `ldb_kv_dn_list_store`: write through to the KV when no
transaction buffer exists, otherwise stage (or restage) the list in the
buffer without touching the KV. -/
def ldb_kv_dn_list_store (s : IdxState) (k : Nat) (l : List Val) : IdxState :=
  match s.idxptr with
  | none => { s with kv := ldb_kv_dn_list_store_full s.kv k l }
  | some buf => { s with idxptr := some (kvPut buf k l) }

/-- Load `ldb_kv_dn_list_load`: a staged entry in the transaction buffer
wins; otherwise the KV record is read (absence decodes to the empty
list). -/
def ldb_kv_dn_list_load_state (s : IdxState) (k : Nat) : List Val :=
  match s.idxptr with
  | some buf =>
    (match kvLookup buf k with
     | some l => l
     | none => (kvLookup s.kv k).getD [])
  | none => (kvLookup s.kv k).getD []

/-- Allocate the transaction buffer (`ldb_kv_index_transaction_start`). -/
def ldb_kv_index_transaction_start (s : IdxState) : IdxState :=
  { s with idxptr := some [] }

/-- Discard the transaction buffer (`ldb_kv_index_transaction_cancel`). -/
def ldb_kv_index_transaction_cancel (s : IdxState) : IdxState :=
  { s with idxptr := none }

/-- Commit: drain every staged entry through the full write and drop the
buffer (`ldb_kv_index_transaction_commit`). -/
def ldb_kv_index_transaction_commit (s : IdxState) : IdxState :=
  match s.idxptr with
  | none => s
  | some buf =>
    { kv := buf.foldl (fun kv p => ldb_kv_dn_list_store_full kv p.1 p.2) s.kv,
      idxptr := none }

/-- Apply a sequence of index stores. -/
def applyStores (s : IdxState) : List (Nat × List Val) → IdxState
  | [] => s
  | (k, l) :: ops => applyStores (ldb_kv_dn_list_store s k l) ops

/-- One observable index mutation issued by the add/delete paths: the
`@IDXDN` DN->GUID record, the `@IDXONE` parent record, or a per-attribute
`@INDEX:attr:value` record; `isAdd` distinguishes insertion from
removal. -/
inductive Step where
  | dnGuid (isAdd : Bool)
  | oneLevel (isAdd : Bool)
  | attrIdx (attr : List Nat) (isAdd : Bool)
deriving DecidableEq

/-- Database configuration flags consulted by the mutation engine. -/
structure MutCfg where
  guid_mode : Bool
  one_level_indexes : Bool
  attribute_indexes : Bool
  is_indexed : List Nat → Bool

/-- Run the per-attribute insertions of `ldb_kv_index_add_all`'s loop:
skip non-indexed elements, stop at the first failing step. -/
def run_attr_steps (cfg : MutCfg) (res : Step → Option LdbErr) (isAdd : Bool) :
    List (List Nat) → Option LdbErr × List Step
  | [] => (none, [])
  | a :: as =>
    if cfg.is_indexed a = false then run_attr_steps cfg res isAdd as
    else
      match res (.attrIdx a isAdd) with
      | some e => (some e, [.attrIdx a isAdd])
      | none =>
        let r := run_attr_steps cfg res isAdd as
        (r.1, .attrIdx a isAdd :: r.2)

/-- Trace of `ldb_kv_write_index_dn_guid`: a no-op without a GUID index,
otherwise one `@IDXDN` mutation. -/
def write_index_dn_guid_steps (cfg : MutCfg) (res : Step → Option LdbErr)
    (isAdd : Bool) : Option LdbErr × List Step :=
  if cfg.guid_mode = false then (none, [])
  else (res (.dnGuid isAdd), [.dnGuid isAdd])

/-- Trace of `ldb_kv_index_onelevel`: a no-op without one-level indexes,
otherwise one `@IDXONE` mutation. -/
def index_onelevel_steps (cfg : MutCfg) (res : Step → Option LdbErr)
    (isAdd : Bool) : Option LdbErr × List Step :=
  if cfg.one_level_indexes = false then (none, [])
  else (res (.oneLevel isAdd), [.oneLevel isAdd])

/-- Trace of `ldb_kv_index_add_all`: the `@IDXDN` write first, then, when
attribute indexing is on, one insertion per indexed element; the first
failure stops the walk. -/
def ldb_kv_index_add_all_steps (cfg : MutCfg) (res : Step → Option LdbErr)
    (special : Bool) (els : List (List Nat)) : Option LdbErr × List Step :=
  if special then (none, [])
  else
    let g := write_index_dn_guid_steps cfg res true
    match g.1 with
    | some e => (some e, g.2)
    | none =>
      if cfg.attribute_indexes = false then (none, g.2)
      else
        let r := run_attr_steps cfg res true els
        (r.1, g.2 ++ r.2)

/-- Trace of `ldb_kv_index_delete`: the `@IDXONE` removal first, then the
`@IDXDN` removal, then one removal per indexed element. -/
def ldb_kv_index_delete_steps (cfg : MutCfg) (res : Step → Option LdbErr)
    (special : Bool) (els : List (List Nat)) : Option LdbErr × List Step :=
  if special then (none, [])
  else
    let o := index_onelevel_steps cfg res false
    match o.1 with
    | some e => (some e, o.2)
    | none =>
      let g := write_index_dn_guid_steps cfg res false
      match g.1 with
      | some e => (some e, o.2 ++ g.2)
      | none =>
        if cfg.attribute_indexes = false then (none, o.2 ++ g.2)
        else
          let r := run_attr_steps cfg res false els
          (r.1, o.2 ++ g.2 ++ r.2)

/-- Trace of `ldb_kv_index_add_new`: run `ldb_kv_index_add_all`, then the
one-level insertion; on either failure the delete path runs over the same
record to clean up whatever was already written. -/
def ldb_kv_index_add_new_steps (cfg : MutCfg) (res : Step → Option LdbErr)
    (special : Bool) (els : List (List Nat)) : Option LdbErr × List Step :=
  if special then (none, [])
  else
    let r1 := ldb_kv_index_add_all_steps cfg res special els
    match r1.1 with
    | some e =>
      let d := ldb_kv_index_delete_steps cfg res special els
      (some e, r1.2 ++ d.2)
    | none =>
      let r2 := index_onelevel_steps cfg res true
      match r2.1 with
      | some e =>
        let d := ldb_kv_index_delete_steps cfg res special els
        (some e, r1.2 ++ r2.2 ++ d.2)
      | none => (none, r1.2 ++ r2.2)

/-- Index-list cache facts consulted by `ldb_kv_is_indexed`. -/
structure IndexCache where
  GUID_index_attribute : Option (List Nat)
  index_handler_override : Bool
  override_flag_indexed : List Nat → Bool
  attribute_indexes : Bool
  indexlist_idxattr : List (List Nat)

/-- Predicate `ldb_kv_is_indexed`: the GUID index attribute itself is
never treated as indexed; with a schema override the
`LDB_ATTR_FLAG_INDEXED` flag decides; otherwise the `@IDXATTR` values of
the cached `@INDEXLIST` record are scanned. -/
def ldb_kv_is_indexed (c : IndexCache) (attr : List Nat) : Bool :=
  if (match c.GUID_index_attribute with
      | some g => attr == g
      | none => false) then false
  else if c.index_handler_override then c.override_flag_indexed attr
  else if c.attribute_indexes = false then false
  else c.indexlist_idxattr.any (fun v => v == attr)

/-- Per-value loop shared by `ldb_kv_index_add_el` and
`ldb_kv_index_del_element`: one mutation per value of the element,
stopping at the first failure. -/
def attr_value_steps (res : Step → Option LdbErr) (attr : List Nat)
    (isAdd : Bool) : Nat → Option LdbErr × List Step
  | 0 => (none, [])
  | n + 1 =>
    match res (.attrIdx attr isAdd) with
    | some e => (some e, [.attrIdx attr isAdd])
    | none =>
      let r := attr_value_steps res attr isAdd n
      (r.1, .attrIdx attr isAdd :: r.2)

/-- Trace of `ldb_kv_index_add_element`: a no-op for a special DN or a
non-indexed attribute, otherwise one insertion per value of the
element. -/
def ldb_kv_index_add_element_steps (c : IndexCache) (res : Step → Option LdbErr)
    (special : Bool) (attr : List Nat) (num_values : Nat) :
    Option LdbErr × List Step :=
  if special then (none, [])
  else if ldb_kv_is_indexed c attr = false then (none, [])
  else attr_value_steps res attr true num_values

/-- Trace of `ldb_kv_index_del_element`: a no-op when attribute indexes
are off, for a special DN, or for a non-indexed attribute; otherwise one
removal per value of the element. -/
def ldb_kv_index_del_element_steps (c : IndexCache) (res : Step → Option LdbErr)
    (special : Bool) (attr : List Nat) (num_values : Nat) :
    Option LdbErr × List Step :=
  if c.attribute_indexes = false then (none, [])
  else if special then (none, [])
  else if ldb_kv_is_indexed c attr = false then (none, [])
  else attr_value_steps res attr false num_values

theorem findIdxP_some_exists {p : Val → Bool} {l : List Val} {i : Nat}
    (h : findIdxP p l = some i) : ∃ w ∈ l, p w = true := by
  induction l generalizing i with
  | nil => simp [findIdxP] at h
  | cons w ws ih =>
    by_cases hp : p w
    · exact ⟨w, List.mem_cons_self _ _, hp⟩
    · rw [show findIdxP p (w :: ws)
          = if p w then some 0 else (findIdxP p ws).map (· + 1) from rfl,
        if_neg hp] at h
      rcases hws : findIdxP p ws with _ | j
      · rw [hws] at h
        simp at h
      · obtain ⟨u, hu, hpu⟩ := ih hws
        exact ⟨u, List.mem_cons_of_mem _ hu, hpu⟩

theorem memcmpSign_eq_zero_iff (a b : List Nat) : memcmpSign a b = 0 ↔ a = b := by
  induction a generalizing b with
  | nil => cases b <;> simp [memcmpSign]
  | cons x xs ih =>
    cases b with
    | nil => simp [memcmpSign]
    | cons y ys =>
      rcases Nat.lt_trichotomy x y with h | h | h
      · simp [memcmpSign, h, Nat.ne_of_lt h]
      · subst h
        simp [memcmpSign, Nat.lt_irrefl, ih]
      · simp [memcmpSign, h, Nat.lt_asymm h, (Nat.ne_of_lt h).symm]

theorem memcmpSign_swap (a b : List Nat) : memcmpSign b a = -memcmpSign a b := by
  induction a generalizing b with
  | nil => cases b <;> simp [memcmpSign]
  | cons x xs ih =>
    cases b with
    | nil => simp [memcmpSign]
    | cons y ys =>
      rcases Nat.lt_trichotomy x y with h | h | h
      · simp [memcmpSign, h, Nat.lt_asymm h]
      · subst h
        simp [memcmpSign, Nat.lt_irrefl, ih]
      · simp [memcmpSign, h, Nat.lt_asymm h]

theorem ldb_val_cmp_zero_iff (v w : Val) :
    ldb_val_equal_exact_ordered v w = 0 ↔ v = w := by
  constructor
  · intro h0
    by_cases h1 : w.length < v.length
    · rw [ldb_val_equal_exact_ordered, if_pos h1] at h0
      exact absurd h0 (by norm_num)
    · by_cases h2 : v.length < w.length
      · rw [ldb_val_equal_exact_ordered, if_neg h1, if_pos h2] at h0
        exact absurd h0 (by norm_num)
      · rw [ldb_val_equal_exact_ordered, if_neg h1, if_neg h2] at h0
        exact (memcmpSign_eq_zero_iff v w).mp h0
  · rintro rfl
    rw [ldb_val_equal_exact_ordered, if_neg (Nat.lt_irrefl _),
      if_neg (Nat.lt_irrefl _)]
    exact (memcmpSign_eq_zero_iff v v).mpr rfl

theorem ldb_val_cmp_swap (v w : Val) :
    ldb_val_equal_exact_ordered w v = -ldb_val_equal_exact_ordered v w := by
  rcases Nat.lt_trichotomy v.length w.length with h | h | h
  · rw [ldb_val_equal_exact_ordered, if_pos h,
      ldb_val_equal_exact_ordered, if_neg (Nat.lt_asymm h), if_pos h]
  · have h1 : ¬w.length < v.length := by omega
    have h2 : ¬v.length < w.length := by omega
    rw [ldb_val_equal_exact_ordered, if_neg h2, if_neg h1,
      ldb_val_equal_exact_ordered, if_neg h1, if_neg h2]
    exact memcmpSign_swap v w
  · rw [ldb_val_equal_exact_ordered, if_neg (Nat.lt_asymm h), if_pos h,
      ldb_val_equal_exact_ordered, if_pos h]
    norm_num

theorem ldb_kv_dn_list_find_val_mem {g : Bool} {l : List Val} {v : Val}
    (h : ldb_kv_dn_list_find_val g l v ≠ -1) : v ∈ l := by
  unfold ldb_kv_dn_list_find_val at h
  by_cases hg : g = false
  · rw [if_pos hg] at h
    rcases hf : findIdxP (fun w => ldb_val_equal_exact w v == 1) l with _ | i
    · rw [hf] at h
      simp at h
    · obtain ⟨w, hw, hpw⟩ := findIdxP_some_exists hf
      unfold ldb_val_equal_exact at hpw
      by_cases hwv : w = v
      · exact hwv ▸ hw
      · rw [if_neg hwv] at hpw
        simp at hpw
  · rw [if_neg hg] at h
    unfold binary_array_search_gte at h
    rcases hf : findIdxP (fun w => ldb_val_equal_exact_ordered v w == 0) l
      with _ | i
    · rw [hf] at h
      simp at h
    · obtain ⟨w, hw, hpw⟩ := findIdxP_some_exists hf
      have h0 : ldb_val_equal_exact_ordered v w = 0 := by simpa using hpw
      exact ((ldb_val_cmp_zero_iff v w).mp h0) ▸ hw

theorem list_intersect_filter_mem {g : Bool} {short long : List Val} {v : Val}
    (hv : v ∈ short.filter (fun v => ldb_kv_dn_list_find_val g long v ≠ -1)) :
    v ∈ short ∧ v ∈ long := by
  rcases List.mem_filter.mp hv with ⟨h1, h2⟩
  exact ⟨h1, ldb_kv_dn_list_find_val_mem (of_decide_eq_true h2)⟩

/-- C1: in `list_intersect`, the superset shortcut (keeping `a` when
`|a| < 2` and `|b| > 10`, or replacing `a` by `b` in the symmetric case)
is taken only when the larger side is not strict, and whenever a side is
strict — in particular the larger side — every element of the result is a
member of that strict input, so a strict list is never widened. -/
theorem list_intersect_strict_contract (g : Bool) (a b : DnList) :
    (a.dn.length < 2 → 10 < b.dn.length → b.strict = false →
      list_intersect g a b = a) ∧
    (b.dn.length < 2 → 10 < a.dn.length → a.strict = false →
      (list_intersect g a b).dn = b.dn) ∧
    (a.strict = true → ∀ v ∈ (list_intersect g a b).dn, v ∈ a.dn) ∧
    (b.strict = true → ∀ v ∈ (list_intersect g a b).dn, v ∈ b.dn) := by
  unfold list_intersect
  split_ifs with h0 h1 h2 h3 hlen
  · refine ⟨fun _ _ _ => rfl, fun _ hlt _ => absurd hlt (by omega), ?_, ?_⟩
    · exact fun _ v hv => hv
    · intro _ v hv
      rw [List.length_eq_zero.mp h0] at hv
      simp at hv
  · refine ⟨fun _ hlt _ => absurd hlt (by omega), ?_, ?_, ?_⟩
    · intro _ _ _
      rw [List.length_eq_zero.mp h1]
    · intro _ v hv
      simp at hv
    · intro _ v hv
      simp at hv
  · refine ⟨fun _ _ _ => rfl, ?_, fun _ v hv => hv, ?_⟩
    · intro hlt _ _
      exact absurd hlt (by omega)
    · intro hbs
      rw [h2.2.2] at hbs
      exact absurd hbs (by simp)
  · refine ⟨?_, fun _ _ _ => rfl, ?_, fun _ v hv => hv⟩
    · intro hlt _ _
      exact absurd hlt (by omega)
    · intro has
      rw [h3.2.2] at has
      exact absurd has (by simp)
  · exact ⟨fun ha hb hbs => absurd ⟨ha, hb, hbs⟩ h2,
      fun hb ha has => absurd ⟨hb, ha, has⟩ h3,
      fun _ v hv => (list_intersect_filter_mem hv).2,
      fun _ v hv => (list_intersect_filter_mem hv).1⟩
  · exact ⟨fun ha hb hbs => absurd ⟨ha, hb, hbs⟩ h2,
      fun hb ha has => absurd ⟨hb, ha, has⟩ h3,
      fun _ v hv => (list_intersect_filter_mem hv).1,
      fun _ v hv => (list_intersect_filter_mem hv).2⟩

/-- Witness for C1 at a concrete pair of lists: the shortcut fires for a
1-element list against a non-strict 11-element list and keeps the small
side unchanged. -/
theorem list_intersect_strict_contract_witness :
    (⟨[[1]], false⟩ : DnList).dn.length < 2 ∧
    10 < (⟨[[0], [1], [2], [3], [4], [5], [6], [7], [8], [9], [10]],
      false⟩ : DnList).dn.length ∧
    list_intersect false ⟨[[1]], false⟩
      ⟨[[0], [1], [2], [3], [4], [5], [6], [7], [8], [9], [10]], false⟩
      = ⟨[[1]], false⟩ :=
  ⟨by decide, by decide,
    (list_intersect_strict_contract false ⟨[[1]], false⟩
      ⟨[[0], [1], [2], [3], [4], [5], [6], [7], [8], [9], [10]], false⟩).1
      (by decide) (by decide) rfl⟩

theorem key_dn_scan_no_match {dn : Nat} {fetch : Val → FetchRes} :
    ∀ {l : List Val}, (∀ v ∈ l, fetch v ≠ .internalError) →
    (∀ v ∈ l, fetch v ≠ .found dn) →
    key_dn_from_idx_scan dn fetch l = .error .noSuchObject := by
  intro l
  induction l with
  | nil => intro _ _; rfl
  | cons v rest ih =>
    intro hne hno
    have hrest := ih (fun u hu => hne u (List.mem_cons_of_mem _ hu))
      (fun u hu => hno u (List.mem_cons_of_mem _ hu))
    rcases hfv : fetch v with d | _ | _
    · have hd : d ≠ dn := by
        intro he
        exact hno v (List.mem_cons_self _ _) (he ▸ hfv)
      simpa [key_dn_from_idx_scan, hfv, hd] using hrest
    · simpa [key_dn_from_idx_scan, hfv] using hrest
    · exact absurd hfv (hne v (List.mem_cons_self _ _))

theorem key_dn_scan_unique_match {dn : Nat} {fetch : Val → FetchRes} {u : Val} :
    ∀ {l : List Val}, (∀ v ∈ l, fetch v ≠ .internalError) →
    u ∈ l → fetch u = .found dn →
    (∀ w ∈ l, w ≠ u → fetch w ≠ .found dn) →
    key_dn_from_idx_scan dn fetch l = .ok u := by
  intro l
  induction l with
  | nil => intro _ hu; simp at hu
  | cons v rest ih =>
    intro hne hu hfu hon
    by_cases hvu : v = u
    · subst hvu
      simp [key_dn_from_idx_scan, hfu]
    · have hu' : u ∈ rest := by
        rcases List.mem_cons.mp hu with h | h
        · exact absurd h.symm hvu
        · exact h
      have hrest := ih (fun w hw => hne w (List.mem_cons_of_mem _ hw)) hu' hfu
        (fun w hw => hon w (List.mem_cons_of_mem _ hw))
      rcases hfv : fetch v with d | _ | _
      · have hd : d ≠ dn := by
          intro he
          exact hon v (List.mem_cons_self _ _) hvu (he ▸ hfv)
        simpa [key_dn_from_idx_scan, hfv, hd] using hrest
      · simpa [key_dn_from_idx_scan, hfv] using hrest
      · exact absurd hfv (hne v (List.mem_cons_self _ _))

/-- C2: resolving a DN through the `@IDXDN` index in
`ldb_kv_key_dn_from_idx`: an empty list yields `NO_SUCH_OBJECT`; more than
one entry under an untruncated key is a `CONSTRAINT_VIOLATION`; under a
truncated key the candidates are fetched and compared with
`ldb_dn_compare`, vanished candidates are skipped without error, the
unique matching candidate is returned, and exhausting the candidates
yields `NO_SUCH_OBJECT`. -/
theorem ldb_kv_key_dn_from_idx_spec (truncation : Bool) (list : List Val)
    (dn : Nat) (fetch : Val → FetchRes) :
    (list = [] →
      ldb_kv_key_dn_from_idx truncation list dn fetch
        = .error .noSuchObject) ∧
    (1 < list.length → truncation = false →
      ldb_kv_key_dn_from_idx truncation list dn fetch
        = .error .constraintViolation) ∧
    (truncation = true → list ≠ [] →
      (∀ v ∈ list, fetch v ≠ .internalError) →
      ((∀ v ∈ list, fetch v ≠ .found dn) →
        ldb_kv_key_dn_from_idx truncation list dn fetch
          = .error .noSuchObject) ∧
      (∀ u ∈ list, fetch u = .found dn →
        (∀ w ∈ list, w ≠ u → fetch w ≠ .found dn) →
        ldb_kv_key_dn_from_idx truncation list dn fetch = .ok u)) := by
  refine ⟨?_, ?_, ?_⟩
  · rintro rfl
    rfl
  · intro hlen htr
    have h0 : ¬list.length = 0 := by omega
    rw [ldb_kv_key_dn_from_idx.eq_def, if_neg h0, if_pos ⟨hlen, htr⟩]
  · intro htr hne hnoerr
    subst htr
    have h0 : ¬list.length = 0 := by
      intro h
      exact hne (List.length_eq_zero.mp h)
    have h1 : ¬(1 < list.length ∧ (true : Bool) = false) := by simp
    constructor
    · intro hno
      rw [ldb_kv_key_dn_from_idx.eq_def, if_neg h0, if_neg h1, if_pos rfl]
      exact key_dn_scan_no_match hnoerr hno
    · intro u hu hfu hon
      rw [ldb_kv_key_dn_from_idx.eq_def, if_neg h0, if_neg h1, if_pos rfl]
      exact key_dn_scan_unique_match hnoerr hu hfu hon

/-- Witness for C2: with a truncated key and two candidates, the first of
which has vanished, the unique matching candidate is returned. -/
theorem ldb_kv_key_dn_from_idx_spec_witness :
    ldb_kv_key_dn_from_idx true [[1], [2]] 5
      (fun v => if v = [2] then .found 5 else .vanished) = .ok [2] :=
  ((ldb_kv_key_dn_from_idx_spec true [[1], [2]] 5
      (fun v => if v = [2] then .found 5 else .vanished)).2.2 rfl
      (by decide) (by decide)).2 [2] (by decide) (by decide) (by decide)

theorem idxdn_dup_scan_no_match {msg_dn : Nat} {fetch : Val → FetchRes} :
    ∀ {l : List Val}, (∀ v ∈ l, fetch v ≠ .found msg_dn) →
    idxdn_dup_scan msg_dn fetch l ≠ .error .constraintViolation := by
  intro l
  induction l with
  | nil => intro _; simp [idxdn_dup_scan]
  | cons v rest ih =>
    intro hno
    have hrest := ih (fun u hu => hno u (List.mem_cons_of_mem _ hu))
    rcases hfv : fetch v with d | _ | _
    · have hd : d ≠ msg_dn := by
        intro he
        exact hno v (List.mem_cons_self _ _) (he ▸ hfv)
      simpa [idxdn_dup_scan, hfv, hd] using hrest
    · simpa [idxdn_dup_scan, hfv] using hrest
    · simp [idxdn_dup_scan, hfv]

theorem idxdn_dup_scan_ok_of_no_match {msg_dn : Nat} {fetch : Val → FetchRes} :
    ∀ {l : List Val}, (∀ v ∈ l, fetch v ≠ .internalError) →
    (∀ v ∈ l, fetch v ≠ .found msg_dn) →
    idxdn_dup_scan msg_dn fetch l = .ok () := by
  intro l
  induction l with
  | nil => intro _ _; rfl
  | cons v rest ih =>
    intro hne hno
    have hrest := ih (fun u hu => hne u (List.mem_cons_of_mem _ hu))
      (fun u hu => hno u (List.mem_cons_of_mem _ hu))
    rcases hfv : fetch v with d | _ | _
    · have hd : d ≠ msg_dn := by
        intro he
        exact hno v (List.mem_cons_self _ _) (he ▸ hfv)
      simpa [idxdn_dup_scan, hfv, hd] using hrest
    · simpa [idxdn_dup_scan, hfv] using hrest
    · exact absurd hfv (hne v (List.mem_cons_self _ _))

theorem idxdn_dup_scan_match {msg_dn : Nat} {fetch : Val → FetchRes} :
    ∀ {l : List Val}, (∀ v ∈ l, fetch v ≠ .internalError) →
    (∃ v ∈ l, fetch v = .found msg_dn) →
    idxdn_dup_scan msg_dn fetch l = .error .constraintViolation := by
  intro l
  induction l with
  | nil => rintro _ ⟨v, hv, _⟩; simp at hv
  | cons v rest ih =>
    rintro hne ⟨u, hu, hfu⟩
    rcases hfv : fetch v with d | _ | _
    · by_cases hd : d = msg_dn
      · subst hd
        simp [idxdn_dup_scan, hfv]
      · have hu' : u ∈ rest := by
          rcases List.mem_cons.mp hu with h | h
          · subst h
            rw [hfv] at hfu
            cases hfu
            exact absurd rfl hd
          · exact h
        have := ih (fun w hw => hne w (List.mem_cons_of_mem _ hw)) ⟨u, hu', hfu⟩
        simpa [idxdn_dup_scan, hfv, hd] using this
    · have hu' : u ∈ rest := by
        rcases List.mem_cons.mp hu with h | h
        · subst h
          rw [hfv] at hfu
          cases hfu
        · exact h
      have := ih (fun w hw => hne w (List.mem_cons_of_mem _ hw)) ⟨u, hu', hfu⟩
      simpa [idxdn_dup_scan, hfv] using this
    · exact absurd hfv (hne v (List.mem_cons_self _ _))

/-- C4: adding an entry whose casefolded DN already has an `@IDXDN` record
in GUID mode: a non-empty list under an untruncated key fails; under a
truncated key the add fails exactly when some fetched candidate has the
same DN (vanished candidates are skipped); and in both failing cases the
`CONSTRAINT_VIOLATION` of the DN-index path is remapped to
`ENTRY_ALREADY_EXISTS` by `ldb_kv_write_index_dn_guid`. -/
theorem ldb_kv_write_index_dn_guid_add_spec (truncation : Bool)
    (list : List Val) (msg_dn : Nat) (fetch : Val → FetchRes) :
    (truncation = false → list ≠ [] →
      ldb_kv_write_index_dn_guid_add true truncation list msg_dn fetch
        = .error .entryAlreadyExists) ∧
    (truncation = true →
      (∀ v ∈ list, fetch v ≠ .internalError) →
      ((∃ v ∈ list, fetch v = .found msg_dn) →
        ldb_kv_write_index_dn_guid_add true truncation list msg_dn fetch
          = .error .entryAlreadyExists) ∧
      ((∀ v ∈ list, fetch v ≠ .found msg_dn) →
        ldb_kv_write_index_dn_guid_add true truncation list msg_dn fetch
          = .ok ())) ∧
    (ldb_kv_index_add1_idxdn truncation list msg_dn fetch
        = .error .constraintViolation →
      ldb_kv_write_index_dn_guid_add true truncation list msg_dn fetch
        = .error .entryAlreadyExists) := by
  refine ⟨?_, ?_, ?_⟩
  · intro htr hne
    have hpos : 0 < list.length := List.length_pos.mpr hne
    have h1 : ldb_kv_index_add1_idxdn truncation list msg_dn fetch
        = .error .constraintViolation := by
      rw [ldb_kv_index_add1_idxdn, if_pos ⟨hpos, htr⟩]
    rw [ldb_kv_write_index_dn_guid_add, if_neg (by simp), h1]
  · intro htr hnoerr
    subst htr
    constructor
    · intro hex
      rcases hex with ⟨u, hu, hfu⟩
      have hpos : 0 < list.length :=
        List.length_pos.mpr (fun h => by subst h; simp at hu)
      have h1 : ldb_kv_index_add1_idxdn true list msg_dn fetch
          = .error .constraintViolation := by
        rw [ldb_kv_index_add1_idxdn, if_neg (by simp), if_pos hpos]
        exact idxdn_dup_scan_match hnoerr ⟨u, hu, hfu⟩
      rw [ldb_kv_write_index_dn_guid_add, if_neg (by simp), h1]
    · intro hno
      rcases list with _ | ⟨v, rest⟩
      · rw [ldb_kv_write_index_dn_guid_add, if_neg (by simp),
          ldb_kv_index_add1_idxdn]
        simp
      · have hpos : 0 < (v :: rest).length := by simp
        have h1 : ldb_kv_index_add1_idxdn true (v :: rest) msg_dn fetch
            = .ok () := by
          rw [ldb_kv_index_add1_idxdn, if_neg (by simp), if_pos hpos]
          exact idxdn_dup_scan_ok_of_no_match hnoerr hno
        rw [ldb_kv_write_index_dn_guid_add, if_neg (by simp), h1]
  · intro h1
    rw [ldb_kv_write_index_dn_guid_add, if_neg (by simp), h1]

/-- Witness for C4: an untruncated `@IDXDN` key with one existing entry
makes the add fail with `ENTRY_ALREADY_EXISTS`. -/
theorem ldb_kv_write_index_dn_guid_add_spec_witness :
    ldb_kv_write_index_dn_guid_add true false [[7]] 3 (fun _ => .vanished)
      = .error .entryAlreadyExists :=
  (ldb_kv_write_index_dn_guid_add_spec false [[7]] 3
    (fun _ => .vanished)).1 rfl (by decide)

theorem findIdxP_none_of_all {p : Val → Bool} :
    ∀ {l : List Val}, (∀ w ∈ l, p w = false) → findIdxP p l = none := by
  intro l
  induction l with
  | nil => intro _; rfl
  | cons w ws ih =>
    intro h
    have hw : p w = false := h w (List.mem_cons_self _ _)
    rw [show findIdxP p (w :: ws)
        = if p w then some 0 else (findIdxP p ws).map (· + 1) from rfl,
      hw, if_neg (by simp), ih (fun u hu => h u (List.mem_cons_of_mem _ hu))]
    rfl

theorem binary_array_search_gte_no_exact {g : Val} {l : List Val}
    (h : ∀ w ∈ l, ldb_val_equal_exact_ordered g w ≠ 0) :
    binary_array_search_gte l g
      = (none, findIdxP (fun w => decide (ldb_val_equal_exact_ordered g w < 0)) l) := by
  have hexact : findIdxP (fun w => ldb_val_equal_exact_ordered g w == 0) l = none :=
    findIdxP_none_of_all (fun u hu => by simp [h u hu])
  rw [binary_array_search_gte, hexact]

theorem guid_insert_eq_insertSorted {g : Val} :
    ∀ {l : List Val}, (∀ w ∈ l, ldb_val_equal_exact_ordered g w ≠ 0) →
    ldb_kv_guid_index_insert l g = insertSortedVal g l := by
  intro l
  induction l with
  | nil => intro _; rfl
  | cons w ws ih =>
    intro h
    have hrest : ∀ u ∈ ws, ldb_val_equal_exact_ordered g u ≠ 0 :=
      fun u hu => h u (List.mem_cons_of_mem _ hu)
    by_cases hlt : ldb_val_equal_exact_ordered g w < 0
    · have hnext : findIdxP (fun u => decide (ldb_val_equal_exact_ordered g u < 0))
          (w :: ws) = some 0 := by
        rw [show findIdxP (fun u => decide (ldb_val_equal_exact_ordered g u < 0)) (w :: ws)
            = if decide (ldb_val_equal_exact_ordered g w < 0) then some 0
              else (findIdxP (fun u => decide (ldb_val_equal_exact_ordered g u < 0)) ws).map (· + 1)
          from rfl, if_pos (by simpa using hlt)]
      rw [ldb_kv_guid_index_insert, binary_array_search_gte_no_exact h, hnext]
      simp [insertSortedVal, hlt]
    · have hnext0 : findIdxP (fun u => decide (ldb_val_equal_exact_ordered g u < 0))
          (w :: ws)
          = (findIdxP (fun u => decide (ldb_val_equal_exact_ordered g u < 0)) ws).map (· + 1) := by
        rw [show findIdxP (fun u => decide (ldb_val_equal_exact_ordered g u < 0)) (w :: ws)
            = if decide (ldb_val_equal_exact_ordered g w < 0) then some 0
              else (findIdxP (fun u => decide (ldb_val_equal_exact_ordered g u < 0)) ws).map (· + 1)
          from rfl, if_neg (by simpa using hlt)]
      have ihws := ih hrest
      rw [ldb_kv_guid_index_insert, binary_array_search_gte_no_exact h, hnext0]
      rcases hws : findIdxP (fun u => decide (ldb_val_equal_exact_ordered g u < 0)) ws
        with _ | j
      · rw [ldb_kv_guid_index_insert, binary_array_search_gte_no_exact hrest, hws] at ihws
        simp only [Option.map_none']
        simp only [insertSortedVal, if_neg hlt]
        rw [← ihws]
        rfl
      · rw [ldb_kv_guid_index_insert, binary_array_search_gte_no_exact hrest, hws] at ihws
        simp only [Option.map_some']
        simp only [insertSortedVal, if_neg hlt]
        rw [← ihws]
        rfl

theorem insertSortedVal_sorted {g : Val} :
    ∀ {l : List Val}, strictlySortedB l = true →
    (∀ w ∈ l, ldb_val_equal_exact_ordered g w ≠ 0) →
    strictlySortedB (insertSortedVal g l) = true := by
  intro l
  induction l with
  | nil => intro _ _; rfl
  | cons w ws ih =>
    intro hs h
    have hgw : ldb_val_equal_exact_ordered g w ≠ 0 := h w (List.mem_cons_self _ _)
    by_cases hlt : ldb_val_equal_exact_ordered g w < 0
    · simp only [insertSortedVal, if_pos hlt]
      simpa [strictlySortedB, hlt] using hs
    · have hwg : ldb_val_equal_exact_ordered w g < 0 := by
        have hswap := ldb_val_cmp_swap g w
        omega
      simp only [insertSortedVal, if_neg hlt]
      cases ws with
      | nil => simp [insertSortedVal, strictlySortedB, hwg]
      | cons w2 ws2 =>
        have hw12 : ldb_val_equal_exact_ordered w w2 < 0 := by
          by_contra hc
          rw [show strictlySortedB (w :: w2 :: ws2)
              = if ldb_val_equal_exact_ordered w w2 < 0
                then strictlySortedB (w2 :: ws2) else false from rfl,
            if_neg hc] at hs
          exact absurd hs (by simp)
        have hs2 : strictlySortedB (w2 :: ws2) = true := by
          rw [show strictlySortedB (w :: w2 :: ws2)
              = if ldb_val_equal_exact_ordered w w2 < 0
                then strictlySortedB (w2 :: ws2) else false from rfl,
            if_pos hw12] at hs
          exact hs
        have ih2 := ih hs2 (fun u hu => h u (List.mem_cons_of_mem _ hu))
        by_cases hlt2 : ldb_val_equal_exact_ordered g w2 < 0
        · simp only [insertSortedVal, if_pos hlt2] at ih2 ⊢
          rw [show strictlySortedB (w :: g :: w2 :: ws2)
              = if ldb_val_equal_exact_ordered w g < 0
                then strictlySortedB (g :: w2 :: ws2) else false from rfl,
            if_pos hwg]
          exact ih2
        · simp only [insertSortedVal, if_neg hlt2] at ih2 ⊢
          rw [show strictlySortedB (w :: w2 :: insertSortedVal g ws2)
              = if ldb_val_equal_exact_ordered w w2 < 0
                then strictlySortedB (w2 :: insertSortedVal g ws2) else false
            from rfl, if_pos hw12]
          exact ih2

theorem insertSortedVal_perm (g : Val) :
    ∀ (l : List Val), (insertSortedVal g l).Perm (g :: l) := by
  intro l
  induction l with
  | nil => exact List.Perm.refl _
  | cons w ws ih =>
    by_cases hlt : ldb_val_equal_exact_ordered g w < 0
    · simp [insertSortedVal, hlt]
    · simp only [insertSortedVal, if_neg hlt]
      exact (ih.cons w).trans (List.Perm.swap g w ws)

theorem chunks16_cons_block {v : Val} (rest : List Nat) (hv : v.length = 16)
    (hne : v ≠ []) : chunks16 (v ++ rest) = v :: chunks16 rest := by
  rcases v with _ | ⟨x, xs⟩
  · exact absurd rfl hne
  · have ht : ((x :: xs) ++ rest).take 16 = x :: xs := List.take_left' hv
    have hd : ((x :: xs) ++ rest).drop 16 = rest := List.drop_left' hv
    rw [show (x :: xs) ++ rest = x :: (xs ++ rest) from rfl]
    rw [chunks16]
    rw [show x :: (xs ++ rest) = (x :: xs) ++ rest from rfl, ht, hd]

theorem guid_blob_roundtrip :
    ∀ {l : List Val}, (∀ v ∈ l, v.length = 16) →
    ldb_kv_guid_blob_decode (ldb_kv_guid_blob_encode l) = some l := by
  have hchunks : ∀ (l : List Val), (∀ v ∈ l, v.length = 16) →
      chunks16 l.flatten = l := by
    intro l
    induction l with
    | nil =>
      intro _
      rw [show ([] : List Val).flatten = ([] : List Nat) from rfl, chunks16]
    | cons v vs ih =>
      intro h
      have hv : v.length = 16 := h v (List.mem_cons_self _ _)
      have hne : v ≠ [] := by
        intro he
        rw [he] at hv
        simp at hv
      rw [List.flatten_cons, chunks16_cons_block _ hv hne,
        ih (fun u hu => h u (List.mem_cons_of_mem _ hu))]
  have hlen : ∀ (l : List Val), (∀ v ∈ l, v.length = 16) →
      l.flatten.length % 16 = 0 := by
    intro l
    induction l with
    | nil => intro _; rfl
    | cons v vs ih =>
      intro h
      rw [List.flatten_cons, List.length_append,
        h v (List.mem_cons_self _ _)]
      have := ih (fun u hu => h u (List.mem_cons_of_mem _ hu))
      omega
  intro l h
  rw [ldb_kv_guid_blob_decode, ldb_kv_guid_blob_encode,
    if_pos (hlen l h), hchunks l h]

/-- C3 counterexample: the single-value insertion path of add does not
preserve the sorted/no-duplicate invariant as claimed.  Inserting a GUID
that is already present (with an untruncated key, as happens for a forced
duplicate value) finds an exact hit, leaves `next` unset, and appends the
GUID at the end: the result keeps a non-truncated duplicate and is not
strictly sorted. -/
theorem guid_index_insert_dup_counterexample :
    strictlySortedB [List.replicate 16 0, List.replicate 15 0 ++ [1]] = true ∧
    ldb_kv_guid_index_insert [List.replicate 16 0, List.replicate 15 0 ++ [1]]
        (List.replicate 16 0)
      = [List.replicate 16 0, List.replicate 15 0 ++ [1],
         List.replicate 16 0] ∧
    strictlySortedB (ldb_kv_guid_index_insert
        [List.replicate 16 0, List.replicate 15 0 ++ [1]]
        (List.replicate 16 0)) = false := by
  decide

/-- C3 (amended): in GUID mode the insertion path preserves the
strictly-sorted, duplicate-free invariant whenever the inserted GUID is
not already in the list (a duplicate insertion is instead retained at the
end with only a warning), and a list loaded back from a stored record is
exactly the stored list, so loading preserves the invariant of every
stored record. -/
theorem guid_index_insert_invariant (l : List Val) (g : Val)
    (hs : strictlySortedB l = true) (hnd : l.Nodup)
    (hfresh : ∀ w ∈ l, ldb_val_equal_exact_ordered g w ≠ 0) :
    strictlySortedB (ldb_kv_guid_index_insert l g) = true ∧
    (ldb_kv_guid_index_insert l g).Nodup ∧
    (∀ m : List Val, (∀ v ∈ m, v.length = 16) →
      ldb_kv_guid_blob_decode (ldb_kv_guid_blob_encode m) = some m) := by
  have heq := guid_insert_eq_insertSorted hfresh
  have hg_notin : g ∉ l := fun hg =>
    hfresh g hg ((ldb_val_cmp_zero_iff g g).mpr rfl)
  refine ⟨?_, ?_, fun m hm => guid_blob_roundtrip hm⟩
  · rw [heq]
    exact insertSortedVal_sorted hs hfresh
  · rw [heq]
    exact ((insertSortedVal_perm g l).nodup_iff).mpr
      (List.nodup_cons.mpr ⟨hg_notin, hnd⟩)

/-- Witness for the amended C3 at a concrete sorted list and fresh
GUID. -/
theorem guid_index_insert_invariant_witness :
    strictlySortedB
      (ldb_kv_guid_index_insert [List.replicate 15 0 ++ [1]]
        (List.replicate 16 0)) = true :=
  (guid_index_insert_invariant [List.replicate 15 0 ++ [1]]
    (List.replicate 16 0) (by decide) (by decide) (by decide)).1

theorem index_dn_and_first_pass_append {cfg : UniqueCfg}
    {ev : PNode → IndexResult} :
    ∀ (cs1 : List PNode) (c : PNode) (cs2 : List PNode),
    (∀ t ∈ cs1, is_unique_equality cfg t = true → ev t = .opError) →
    index_dn_and_first_pass cfg ev (cs1 ++ c :: cs2)
      = index_dn_and_first_pass cfg ev (c :: cs2) := by
  intro cs1
  induction cs1 with
  | nil => intro c cs2 _; rfl
  | cons t ts ih =>
    intro c cs2 h
    have hrest := ih c cs2
      (fun u hu => h u (List.mem_cons_of_mem _ hu))
    by_cases hu : is_unique_equality cfg t = true
    · have hev := h t (List.mem_cons_self _ _) hu
      rw [List.cons_append]
      simp only [index_dn_and_first_pass, hu, if_true, hev]
      exact hrest
    · rw [List.cons_append]
      simp only [index_dn_and_first_pass,
        Bool.not_eq_true _ ▸ hu, if_neg hu]
      exact hrest

/-- C5: in the first pass of `ldb_kv_index_dn_and` only unique equality
leaves are evaluated — children that are not unique equality leaves, or
whose evaluation is not indexed, are passed over — and the first unique
equality leaf that answers decides the AND without the remaining children
being consulted: a `NO_SUCH_OBJECT` answer makes the whole AND return
`NO_SUCH_OBJECT`, and a successful answer is returned as the AND's
candidate list immediately. -/
theorem ldb_kv_index_dn_and_first_pass_spec (cfg : UniqueCfg) (g : Bool)
    (ev : PNode → IndexResult) (cs1 : List PNode) (c : PNode)
    (cs2 : List PNode)
    (hskip : ∀ t ∈ cs1, is_unique_equality cfg t = true → ev t = .opError)
    (hc : is_unique_equality cfg c = true) :
    (ev c = .noSuchObject →
      ldb_kv_index_dn_and cfg g ev (cs1 ++ c :: cs2) = .noSuchObject) ∧
    (∀ l, ev c = .success l →
      ldb_kv_index_dn_and cfg g ev (cs1 ++ c :: cs2) = .success l) := by
  have happ := index_dn_and_first_pass_append cs1 c cs2 hskip
  constructor
  · intro hev
    rw [ldb_kv_index_dn_and, happ]
    simp [index_dn_and_first_pass, hc, hev]
  · intro l hev
    rw [ldb_kv_index_dn_and, happ]
    simp [index_dn_and_first_pass, hc, hev]

/-- Witness for C5: a unique equality leaf sandwiched between two
non-indexed children decides the AND with its own candidate list. -/
theorem ldb_kv_index_dn_and_first_pass_spec_witness :
    ldb_kv_index_dn_and
      ⟨some [1], fun _ => false, fun _ => false⟩ false
      (fun t => match t with
        | .eq a => if a = [1] then .success ⟨[[5]], false⟩ else .opError
        | .other _ => .opError)
      [.other 0, .eq [1], .other 1] = .success ⟨[[5]], false⟩ :=
  (ldb_kv_index_dn_and_first_pass_spec
    ⟨some [1], fun _ => false, fun _ => false⟩ false
    (fun t => match t with
      | .eq a => if a = [1] then .success ⟨[[5]], false⟩ else .opError
      | .other _ => .opError)
    [.other 0] (.eq [1]) [.other 1]
    (by decide) (by decide)).2 ⟨[[5]], false⟩ (by decide)

theorem sub_size_t_of_le {a b : Nat} (hb : b ≤ a)
    (ha : a < 18446744073709551616) : sub_size_t a b = a - b := by
  unfold sub_size_t
  have hbm : b % 18446744073709551616 = b :=
    Nat.mod_eq_of_lt (lt_of_le_of_lt hb ha)
  rw [hbm]
  omega

theorem sub_uint_of_le {a b : Nat} (hb : b ≤ a) (ha : a < 4294967296) :
    sub_uint a b = a - b := by
  unfold sub_uint
  have hbm : b % 4294967296 = b := Nat.mod_eq_of_lt (lt_of_le_of_lt hb ha)
  rw [hbm]
  omega

theorem ldb_kv_max_key_length_lt (mkl0 : Nat) (hm : mkl0 < 4294967296) :
    ldb_kv_max_key_length mkl0 < 4294967296 := by
  rw [ldb_kv_max_key_length]
  split_ifs
  · rw [UINT_MAX]
    norm_num
  · exact hm

theorem ldb_kv_index_key_truncated_eq (mkl0 : Nat) (attr vstr : List Nat)
    (b64 : Bool) (hm : mkl0 < 4294967296)
    (hfit : attr.length + min_key_length ≤ ldb_kv_max_key_length mkl0)
    (hvl : vstr.length < 18446744073709551616)
    (hover : ldb_kv_max_key_length mkl0 - 4
      < (if b64 then 3 else 2) + 6 + attr.length + vstr.length) :
    ldb_kv_index_key mkl0 attr vstr b64
      = some (LDB_KV_INDEX_bytes ++ sepHash :: attr
          ++ (if b64 then [sepHash, sepHash] else [sepHash])
          ++ vstr.take (vstr.length
            - ((if b64 then 3 else 2) + 6 + attr.length + vstr.length
              - (ldb_kv_max_key_length mkl0 - 4))), true) := by
  have heffle := ldb_kv_max_key_length_lt mkl0 hm
  rw [show min_key_length = 14 from rfl] at hfit
  have hguard : ldb_kv_index_key_min_check_fails mkl0 attr.length = false := by
    rw [ldb_kv_index_key_min_check_fails,
      sub_size_t_of_le (by omega) (by omega)]
    simp only [decide_eq_false_iff_not, not_lt]
    rw [show min_key_length = 14 from rfl]
    omega
  have hmkl : sub_uint (ldb_kv_max_key_length mkl0) additional_key_length
      = ldb_kv_max_key_length mkl0 - 4 := by
    rw [show additional_key_length = 4 from rfl]
    exact sub_uint_of_le (by omega) heffle
  have hns3 : (if b64 then 3 else 2) ≤ 3 := by split_ifs <;> omega
  have hexcess : (if b64 then 3 else 2) + 6 + attr.length + vstr.length
      - (ldb_kv_max_key_length mkl0 - 4) ≤ vstr.length := by omega
  simp only [ldb_kv_index_key, hguard, Bool.false_eq_true, if_false, hmkl]
  rw [if_pos hover, sub_size_t_of_le hexcess hvl]

theorem truncated_key_byte6 {m : Nat} {a v : List Nat} {b : Bool}
    {k : List Nat} (h : ldb_kv_index_key m a v b = some (k, true)) :
    (k.drop 6).head? = some sepHash := by
  simp only [ldb_kv_index_key] at h
  split_ifs at h <;> simp at h <;> subst h <;> rfl

theorem untruncated_key_byte6 {m : Nat} {a v : List Nat} {b : Bool}
    {k : List Nat} (h : ldb_kv_index_key m a v b = some (k, false)) :
    (k.drop 6).head? = some sepColon := by
  simp only [ldb_kv_index_key] at h
  split_ifs at h <;> simp at h <;> subst h <;> rfl

/-- C6: when a composed index key exceeds the (finite) limit, the value
portion is truncated so that the key plus the store's 4 extra bytes meet
the limit exactly and the truncation flag is set; truncated keys use the
`#`/`##` separators where untruncated keys use `:`/`::`, so a truncated
key produced by `ldb_kv_index_key` is never byte-equal to any untruncated
one. -/
theorem ldb_kv_index_key_truncation_spec (mkl0 : Nat) (attr vstr : List Nat)
    (b64 : Bool) (hm : mkl0 < 4294967296)
    (hfit : attr.length + min_key_length ≤ ldb_kv_max_key_length mkl0)
    (hvl : vstr.length < 18446744073709551616)
    (hover : ldb_kv_max_key_length mkl0 - 4
      < (if b64 then 3 else 2) + 6 + attr.length + vstr.length) :
    (∃ frmt_len : Nat,
      ldb_kv_index_key mkl0 attr vstr b64
        = some (LDB_KV_INDEX_bytes ++ sepHash :: attr
            ++ (if b64 then [sepHash, sepHash] else [sepHash])
            ++ vstr.take frmt_len, true) ∧
      frmt_len < vstr.length ∧
      (LDB_KV_INDEX_bytes ++ sepHash :: attr
        ++ (if b64 then [sepHash, sepHash] else [sepHash])
        ++ vstr.take frmt_len).length + additional_key_length
        = ldb_kv_max_key_length mkl0) ∧
    (∀ (m1 m2 : Nat) (a1 v1 a2 v2 : List Nat) (b1 b2 : Bool)
      (k1 k2 : List Nat),
      ldb_kv_index_key m1 a1 v1 b1 = some (k1, true) →
      ldb_kv_index_key m2 a2 v2 b2 = some (k2, false) → k1 ≠ k2) := by
  constructor
  · have heffle := ldb_kv_max_key_length_lt mkl0 hm
    rw [show min_key_length = 14 from rfl] at hfit
    have h2ns : 2 ≤ (if b64 then 3 else 2) := by split_ifs <;> omega
    have hns3 : (if b64 then 3 else 2) ≤ 3 := by split_ifs <;> omega
    refine ⟨vstr.length - ((if b64 then 3 else 2) + 6 + attr.length
        + vstr.length - (ldb_kv_max_key_length mkl0 - 4)),
      ldb_kv_index_key_truncated_eq mkl0 attr vstr b64 hm
        (by rw [show min_key_length = 14 from rfl]; omega) hvl hover,
      by omega, ?_⟩
    have hsep : ((if b64 then [sepHash, sepHash] else [sepHash]) : List Nat).length
        = (if b64 then 3 else 2) - 1 := by
      split_ifs <;> rfl
    simp only [List.length_append, List.length_cons, List.length_take, hsep,
      show LDB_KV_INDEX_bytes.length = 6 from rfl,
      show additional_key_length = 4 from rfl]
    omega
  · intro m1 m2 a1 v1 a2 v2 b1 b2 k1 k2 h1 h2 heq
    have hb1 := truncated_key_byte6 h1
    have hb2 := untruncated_key_byte6 h2
    rw [heq, hb2] at hb1
    simp [sepColon, sepHash] at hb1

/-- Witness for C6: with limit 20 the key for attribute `A` and a 10-byte
value is truncated to a 16-byte key using `#`, and is distinct from the
untruncated `:` key of a short value. -/
theorem ldb_kv_index_key_truncation_spec_witness :
    ([64, 73, 78, 68, 69, 88, 35, 65, 35, 66, 66, 66, 66, 66, 66, 66]
      : List Nat)
      ≠ [64, 73, 78, 68, 69, 88, 58, 65, 58, 66] :=
  (ldb_kv_index_key_truncation_spec 20 [65] (List.replicate 10 66) false
      (by norm_num) (by decide) (by norm_num) (by decide)).2
    20 20 [65] (List.replicate 10 66) [65] [66] false false
    [64, 73, 78, 68, 69, 88, 35, 65, 35, 66, 66, 66, 66, 66, 66, 66]
    [64, 73, 78, 68, 69, 88, 58, 65, 58, 66]
    (by decide) (by decide)

/-- C8 counterexample: with `max_key_length = 10` and a 20-byte attribute
name, even the minimum plausible key (attr_len + 14 = 34 bytes) cannot
fit, yet the unsigned subtraction `10 - 20` wraps around, the up-front
check does not fire, and the formatter still returns a key. -/
theorem ldb_kv_index_key_min_check_counterexample :
    ldb_kv_index_key_min_check_fails 10 20 = false ∧
    ldb_kv_max_key_length 10 < 20 + min_key_length ∧
    (ldb_kv_index_key 10 (List.replicate 20 65) [66] false).isSome = true := by
  decide

/-- C8 (amended): `max_key_length = 0` is treated as unlimited
(`UINT_MAX`); for an attribute name no longer than the effective limit,
the up-front check of `ldb_kv_index_key` fails exactly when the minimum
plausible key — attr name, 3 separators, the `@INDEX` literal, 1 value
byte and the 4 backing-store bytes — cannot fit; but since the check is
the unsigned `size_t` subtraction `max_key_length - attr_len <
min_key_length`, an attribute name strictly longer than the limit wraps
around and does not trigger the failure. -/
theorem ldb_kv_index_key_min_check_spec (mkl0 a : Nat)
    (hm : mkl0 < 4294967296) :
    (mkl0 = 0 → ldb_kv_max_key_length mkl0 = 4294967295) ∧
    (a ≤ ldb_kv_max_key_length mkl0 →
      (ldb_kv_index_key_min_check_fails mkl0 a = true ↔
        ldb_kv_max_key_length mkl0 < a + min_key_length)) ∧
    (ldb_kv_max_key_length mkl0 < a → a < 18446744073709551602 →
      ldb_kv_index_key_min_check_fails mkl0 a = false) := by
  have heffle := ldb_kv_max_key_length_lt mkl0 hm
  refine ⟨?_, ?_, ?_⟩
  · intro h0
    rw [h0, ldb_kv_max_key_length, if_pos rfl, UINT_MAX]
  · intro ha
    rw [ldb_kv_index_key_min_check_fails, sub_size_t_of_le ha (by omega),
      show min_key_length = 14 from rfl]
    simp only [decide_eq_true_eq]
    omega
  · intro hlt ha64
    rw [ldb_kv_index_key_min_check_fails, sub_size_t,
      show min_key_length = 14 from rfl]
    simp only [decide_eq_false_iff_not, not_lt]
    omega

/-- Witness for the amended C8: with limit 20 an 18-byte attribute name
cannot be accompanied by even a minimal key, and the check fires. -/
theorem ldb_kv_index_key_min_check_spec_witness :
    ldb_kv_index_key_min_check_fails 20 18 = true :=
  ((ldb_kv_index_key_min_check_spec 20 18 (by norm_num)).2.1
    (by decide)).mpr (by decide)

theorem applyStores_kv_unchanged :
    ∀ (ops : List (Nat × List Val)) (s : IdxState),
    s.idxptr.isSome = true →
    (applyStores s ops).kv = s.kv ∧
    (applyStores s ops).idxptr.isSome = true := by
  intro ops
  induction ops with
  | nil => intro s hs; exact ⟨rfl, hs⟩
  | cons op rest ih =>
    intro s hs
    rcases hb : s.idxptr with _ | buf
    · rw [hb] at hs
      simp at hs
    · have hstep : ldb_kv_dn_list_store s op.1 op.2
          = { s with idxptr := some (kvPut buf op.1 op.2) } := by
        rw [ldb_kv_dn_list_store, hb]
      have := ih ({ s with idxptr := some (kvPut buf op.1 op.2) }) rfl
      rw [show applyStores s (op :: rest)
          = applyStores (ldb_kv_dn_list_store s op.1 op.2) rest from rfl,
        hstep]
      exact this

/-- C7: while the transaction write buffer exists every index store is
staged in the buffer and the backing KV is untouched; after
`ldb_kv_index_transaction_cancel` the backing KV is identical to its
state before `ldb_kv_index_transaction_start` and the buffer is gone; and
inside the transaction a load of a staged key returns the staged list
(read-your-writes). -/
theorem ldb_kv_index_transaction_cancel_spec (s0 : IdxState)
    (ops : List (Nat × List Val)) :
    (applyStores (ldb_kv_index_transaction_start s0) ops).kv = s0.kv ∧
    (ldb_kv_index_transaction_cancel
      (applyStores (ldb_kv_index_transaction_start s0) ops)).kv = s0.kv ∧
    (ldb_kv_index_transaction_cancel
      (applyStores (ldb_kv_index_transaction_start s0) ops)).idxptr
      = none ∧
    (∀ (s : IdxState) (k : Nat) (l : List Val), s.idxptr.isSome = true →
      ldb_kv_dn_list_load_state (ldb_kv_dn_list_store s k l) k = l) := by
  have hmain := applyStores_kv_unchanged ops
    (ldb_kv_index_transaction_start s0) rfl
  refine ⟨hmain.1, hmain.1, rfl, ?_⟩
  intro s k l hs
  rcases hb : s.idxptr with _ | buf
  · rw [hb] at hs
    simp at hs
  · rw [ldb_kv_dn_list_store, hb, ldb_kv_dn_list_load_state]
    simp [kvLookup, kvPut]

/-- Witness for C7: a store staged inside a transaction is visible to a
load of the same key. -/
theorem ldb_kv_index_transaction_cancel_spec_witness :
    ldb_kv_dn_list_load_state
      (ldb_kv_dn_list_store ⟨[], some []⟩ 7 [[1]]) 7 = [[1]] :=
  (ldb_kv_index_transaction_cancel_spec ⟨[], none⟩ []).2.2.2
    ⟨[], some []⟩ 7 [[1]] rfl

theorem run_attr_steps_ok {cfg : MutCfg} {res : Step → Option LdbErr}
    (hres : ∀ st, res st = none) (isAdd : Bool) :
    ∀ els, run_attr_steps cfg res isAdd els
      = (none, (els.filter cfg.is_indexed).map (fun a => Step.attrIdx a isAdd)) := by
  intro els
  induction els with
  | nil => rfl
  | cons a as ih =>
    by_cases hidx : cfg.is_indexed a = false
    · simp [run_attr_steps, hidx, List.filter_cons, ih]
    · have hidx' : cfg.is_indexed a = true := by
        revert hidx
        cases cfg.is_indexed a <;> simp
      simp [run_attr_steps, hidx, hres, List.filter_cons, hidx', ih]

/-- C9 counterexample: with one indexed attribute element and every step
succeeding, the add path writes `@IDXDN`, then the per-attribute entry,
then `@IDXONE` — so the `@IDXONE` parent index is not updated before the
per-attribute entries — and the delete path removes `@IDXONE` and
`@IDXDN` before the per-attribute entries, not after them. -/
theorem ldb_kv_index_order_counterexample :
    (ldb_kv_index_add_new_steps ⟨true, true, true, fun _ => true⟩
        (fun _ => none) false [[99]]).2
      = [Step.dnGuid true, Step.attrIdx [99] true, Step.oneLevel true] ∧
    ¬ (∀ i j : Fin 3,
        [Step.dnGuid true, Step.attrIdx [99] true, Step.oneLevel true].get i
          = Step.oneLevel true →
        [Step.dnGuid true, Step.attrIdx [99] true, Step.oneLevel true].get j
          = Step.attrIdx [99] true → (i : Nat) < (j : Nat)) ∧
    (ldb_kv_index_delete_steps ⟨true, true, true, fun _ => true⟩
        (fun _ => none) false [[99]]).2
      = [Step.oneLevel false, Step.dnGuid false, Step.attrIdx [99] false] ∧
    ¬ (∀ i j : Fin 3,
        [Step.oneLevel false, Step.dnGuid false,
          Step.attrIdx [99] false].get i = Step.attrIdx [99] false →
        [Step.oneLevel false, Step.dnGuid false,
          Step.attrIdx [99] false].get j = Step.oneLevel false →
        (i : Nat) < (j : Nat)) := by
  decide

/-- C9 (amended): on add, `ldb_kv_index_add_all` updates the `@IDXDN`
DN->GUID record first and the per-attribute entries after it, while
`ldb_kv_index_add_new` updates the `@IDXONE` parent record last; on
delete the order is `@IDXONE`, then `@IDXDN`, then the per-attribute
entries; and when the attribute/`@IDXDN` phase of an add fails,
`ldb_kv_index_add_new` invokes the delete path over the same record so
that index entries already written are cleaned up. -/
theorem ldb_kv_index_order_spec (cfg : MutCfg) (res : Step → Option LdbErr)
    (els : List (List Nat)) (hg : cfg.guid_mode = true)
    (ho : cfg.one_level_indexes = true) (ha : cfg.attribute_indexes = true) :
    ((∀ st, res st = none) →
      (ldb_kv_index_add_new_steps cfg res false els).2
        = Step.dnGuid true
          :: ((els.filter cfg.is_indexed).map (fun a => Step.attrIdx a true)
            ++ [Step.oneLevel true])) ∧
    ((∀ st, res st = none) →
      (ldb_kv_index_delete_steps cfg res false els).2
        = Step.oneLevel false :: Step.dnGuid false
          :: (els.filter cfg.is_indexed).map (fun a => Step.attrIdx a false)) ∧
    (∀ e, (ldb_kv_index_add_all_steps cfg res false els).1 = some e →
      (ldb_kv_index_add_new_steps cfg res false els)
        = (some e, (ldb_kv_index_add_all_steps cfg res false els).2
            ++ (ldb_kv_index_delete_steps cfg res false els).2)) := by
  refine ⟨?_, ?_, ?_⟩
  · intro hres
    have hall : ldb_kv_index_add_all_steps cfg res false els
        = (none, Step.dnGuid true
          :: (els.filter cfg.is_indexed).map (fun a => Step.attrIdx a true)) := by
      rw [ldb_kv_index_add_all_steps]
      simp [write_index_dn_guid_steps, hg, hres, ha, run_attr_steps_ok hres]
    rw [ldb_kv_index_add_new_steps]
    simp [hall, index_onelevel_steps, ho, hres]
  · intro hres
    rw [ldb_kv_index_delete_steps]
    simp [index_onelevel_steps, ho, hres, write_index_dn_guid_steps, hg, ha,
      run_attr_steps_ok hres]
  · intro e he
    rw [ldb_kv_index_add_new_steps]
    simp only [if_neg (by simp : ¬(false = true))]
    rw [he]

/-- Witness for the amended C9 at one indexed element with all steps
succeeding. -/
theorem ldb_kv_index_order_spec_witness :
    (ldb_kv_index_add_new_steps ⟨true, true, true, fun _ => true⟩
        (fun _ => none) false [[98]]).2
      = [Step.dnGuid true, Step.attrIdx [98] true, Step.oneLevel true] := by
  have h := (ldb_kv_index_order_spec ⟨true, true, true, fun _ => true⟩
    (fun _ => none) [[98]] rfl rfl rfl).1 (fun _ => rfl)
  simpa using h

/-- C10: in GUID mode the GUID index attribute itself is never treated as
indexed — `ldb_kv_is_indexed` returns `false` for it even when it is
listed among the indexed attributes or flagged by an override — so
`ldb_kv_index_add_element` and `ldb_kv_index_del_element` on an element
named by the GUID index attribute are no-ops returning success that touch
no `@INDEX` record. -/
theorem ldb_kv_is_indexed_guid_attr_spec (c : IndexCache) (g : List Nat)
    (hg : c.GUID_index_attribute = some g) (res : Step → Option LdbErr)
    (n : Nat) :
    ldb_kv_is_indexed c g = false ∧
    ldb_kv_index_add_element_steps c res false g n = (none, []) ∧
    ldb_kv_index_del_element_steps c res false g n = (none, []) := by
  have hidx : ldb_kv_is_indexed c g = false := by
    rw [ldb_kv_is_indexed, hg]
    simp
  refine ⟨hidx, ?_, ?_⟩
  · simp [ldb_kv_index_add_element_steps, hidx]
  · rcases hai : c.attribute_indexes
    · simp [ldb_kv_index_del_element_steps, hai]
    · simp [ldb_kv_index_del_element_steps, hai, hidx]

/-- Witness for C10: the GUID index attribute is not indexed even when it
appears in the `@IDXATTR` list and carries the override flag. -/
theorem ldb_kv_is_indexed_guid_attr_spec_witness :
    ldb_kv_is_indexed ⟨some [5], false, fun _ => true, true, [[5]]⟩ [5]
      = false ∧
    ldb_kv_index_add_element_steps
      ⟨some [5], false, fun _ => true, true, [[5]]⟩ (fun _ => none)
      false [5] 2 = (none, []) :=
  ⟨(ldb_kv_is_indexed_guid_attr_spec
      ⟨some [5], false, fun _ => true, true, [[5]]⟩ [5] rfl
      (fun _ => none) 2).1,
   (ldb_kv_is_indexed_guid_attr_spec
      ⟨some [5], false, fun _ => true, true, [[5]]⟩ [5] rfl
      (fun _ => none) 2).2.1⟩
